import Mathlib

/-!
Verification of the rag-101 retrieval-augmented-generation pipeline.

Each definition is a shallow embedding of a function of the repository:
  * `normalize_text`        — src/ingestion/text_normalizer.py
  * `generate_chunk_id`     — src/ingestion/workflow.py (chunk-id assignment)
  * `save_step`             — src/ingestion/workflow.py (freshness guard)
  * `save_documents`        — src/ingestion/storage.py + src/db/db_manager.py
  * `buildSearchQuery` etc. — src/retrieval/similarity_search.py
  * `retrieve` / `rerank_results` — src/retrieval/retriever.py, reranker.py
  * `invokeLLMWithRetry`    — src/generation/service.py
-/

namespace Rag101

/-! ## Text normalizer — src/ingestion/text_normalizer.py

The Python code is

    if not text: return ""
    text = text.replace("\x00", "")
    text = re.sub(r'[^\S\n]+', ' ', text)   -- whitespace (except newline) runs → one space
    text = re.sub(r'\n{3,}', '\n\n', text)  -- runs of ≥ 3 newlines → exactly two
    return text.strip()

`isPyWs` is the set of characters Python treats as whitespace (`str.isspace`,
which is also the set matched by `\s` in a `str` regex). -/

def isPyWs (c : Char) : Bool :=
  let n := c.toNat
  n == 0x20 || (0x9 ≤ n && n ≤ 0xd) || (0x1c ≤ n && n ≤ 0x1f) ||
  n == 0x85 || n == 0xa0 || n == 0x1680 || (0x2000 ≤ n && n ≤ 0x200a) ||
  n == 0x2028 || n == 0x2029 || n == 0x202f || n == 0x205f || n == 0x3000

/-- A character matched by the regex class `[^\S\n]`: whitespace other than newline. -/
def nonNlWs (c : Char) : Bool := isPyWs c && !(c == '\n')

def nullChar : Char := Char.ofNat 0

/-- Model of `re.sub(r'[^\S\n]+', ' ', text)`: every maximal run of non-newline
whitespace is replaced by a single space.  Streamed left to right; the flag
records whether we are inside such a run (the run's first character has
already emitted the single `' '`). -/
def collapseWsAux : Bool → List Char → List Char
  | _, [] => []
  | inRun, c :: rest =>
    if nonNlWs c then
      if inRun then collapseWsAux true rest
      else ' ' :: collapseWsAux true rest
    else c :: collapseWsAux false rest

def collapseWs (l : List Char) : List Char := collapseWsAux false l

/-- Model of `re.sub(r'\n{3,}', '\n\n', text)`: every maximal run of at least three
newlines is replaced by exactly two.  Streamed; the counter records how many
consecutive newlines of the current run have been seen so far (emission stops
after the second). -/
def collapseNlAux : Nat → List Char → List Char
  | _, [] => []
  | k, c :: rest =>
    if c = '\n' then
      if k < 2 then '\n' :: collapseNlAux (k + 1) rest
      else collapseNlAux (k + 1) rest
    else c :: collapseNlAux 0 rest

def collapseNl (l : List Char) : List Char := collapseNlAux 0 l

/-- Python `str.strip()`, right end only. -/
def stripEnd (l : List Char) : List Char := (l.reverse.dropWhile isPyWs).reverse

/-- Python `str.strip()`: remove leading and trailing whitespace. -/
def stripWs (l : List Char) : List Char := stripEnd (l.dropWhile isPyWs)

def normalizeChars (l : List Char) : List Char :=
  if l = [] then []
  else stripWs (collapseNl (collapseWs (l.filter (fun c => !(c == nullChar)))))

def normalize_text (s : String) : String := ⟨normalizeChars s.data⟩

example : normalize_text "  hello   world  " = "hello world" := by decide
example : normalize_text "Line 1\nLine 2\n\n\nLine 3" = "Line 1\nLine 2\n\nLine 3" := by decide
example : normalize_text "hello\x00world" = "helloworld" := by decide
example : normalize_text "" = "" := by decide

/-! ### Invariants of normalized text -/

/-- Adjacent characters are never both non-newline whitespace. -/
def noWsPair (a b : Char) : Prop := ¬(nonNlWs a = true ∧ nonNlWs b = true)

/-- Three consecutive newlines occur somewhere in the list. -/
def hasTripleNl : List Char → Bool
  | a :: b :: c :: t => (a == '\n' && b == '\n' && c == '\n') || hasTripleNl (b :: c :: t)
  | _ => false

/-- Length of the leading newline run. -/
def leadNl (l : List Char) : Nat := (l.takeWhile (fun d => d == '\n')).length

lemma mem_collapseWsAux {c : Char} : ∀ (flag : Bool) (l : List Char),
    c ∈ collapseWsAux flag l → c = ' ' ∨ c ∈ l := by
  intro flag l
  induction l generalizing flag with
  | nil => intro h; simp [collapseWsAux] at h
  | cons a rest ih =>
    intro h
    by_cases ha : nonNlWs a = true
    · cases flag with
      | true =>
        simp only [collapseWsAux, ha, if_true] at h
        rcases ih true h with h' | h'
        · exact Or.inl h'
        · exact Or.inr (List.mem_cons_of_mem _ h')
      | false =>
        simp only [collapseWsAux, ha, if_true] at h
        rcases List.mem_cons.mp h with h | h
        · exact Or.inl h
        · rcases ih true h with h' | h'
          · exact Or.inl h'
          · exact Or.inr (List.mem_cons_of_mem _ h')
    · simp only [collapseWsAux, ha, if_false] at h
      rcases List.mem_cons.mp h with h | h
      · exact Or.inr (h ▸ List.mem_cons_self _ _)
      · rcases ih false h with h' | h'
        · exact Or.inl h'
        · exact Or.inr (List.mem_cons_of_mem _ h')

lemma collapseWsAux_ws_eq_space {c : Char} : ∀ (flag : Bool) (l : List Char),
    c ∈ collapseWsAux flag l → nonNlWs c = true → c = ' ' := by
  intro flag l
  induction l generalizing flag with
  | nil => intro h; simp [collapseWsAux] at h
  | cons a rest ih =>
    intro h hc
    by_cases ha : nonNlWs a = true
    · cases flag with
      | true =>
        simp only [collapseWsAux, ha, if_true] at h
        exact ih true h hc
      | false =>
        simp only [collapseWsAux, ha, if_true] at h
        rcases List.mem_cons.mp h with h | h
        · exact h
        · exact ih true h hc
    · simp only [collapseWsAux, ha, if_false] at h
      rcases List.mem_cons.mp h with h | h
      · subst h; exact absurd hc (by simp [ha])
      · exact ih false h hc

lemma collapseWsAux_true_head : ∀ (l : List Char) (d : Char),
    (collapseWsAux true l).head? = some d → nonNlWs d = false := by
  intro l
  induction l with
  | nil => intro d h; simp [collapseWsAux] at h
  | cons a rest ih =>
    intro d h
    by_cases ha : nonNlWs a = true
    · simp only [collapseWsAux, ha, if_true] at h
      exact ih d h
    · simp only [collapseWsAux, ha, if_false, List.head?_cons] at h
      cases h
      exact Bool.eq_false_iff.mpr ha

lemma chain'_collapseWsAux : ∀ (flag : Bool) (l : List Char),
    List.Chain' noWsPair (collapseWsAux flag l) := by
  intro flag l
  induction l generalizing flag with
  | nil => simp [collapseWsAux]
  | cons a rest ih =>
    by_cases ha : nonNlWs a = true
    · cases flag with
      | true => simpa only [collapseWsAux, ha, if_true] using ih true
      | false =>
        simp only [collapseWsAux, ha, if_true]
        refine List.chain'_cons'.mpr ⟨?_, ih true⟩
        intro b hb
        intro hcontra
        exact absurd (collapseWsAux_true_head rest b hb) (by simp [hcontra.2])
    · simp only [collapseWsAux, ha, if_false]
      refine List.chain'_cons'.mpr ⟨?_, ih false⟩
      intro b _
      intro hcontra
      exact ha hcontra.1

lemma collapseWsAux_id : ∀ (l : List Char),
    (∀ c ∈ l, nonNlWs c = true → c = ' ') → List.Chain' noWsPair l →
    collapseWsAux false l = l := by
  intro l
  induction l with
  | nil => intro _ _; rfl
  | cons a rest ih =>
    intro hws hch
    have htail : collapseWsAux false rest = rest :=
      ih (fun c hc => hws c (List.mem_cons_of_mem _ hc)) (List.Chain'.tail hch)
    by_cases ha : nonNlWs a = true
    · have haSp : a = ' ' := hws a (List.mem_cons_self _ _) ha
      have htrue : collapseWsAux true rest = rest := by
        cases rest with
        | nil => rfl
        | cons d t =>
          have hd : nonNlWs d = false := by
            have hnp := (List.chain'_cons'.mp hch).1 d rfl
            cases hDd : nonNlWs d
            · rfl
            · exact absurd ⟨ha, hDd⟩ hnp
          have h1 : collapseWsAux true (d :: t) = d :: collapseWsAux false t := by
            simp [collapseWsAux, hd]
          have h2 : collapseWsAux false (d :: t) = d :: collapseWsAux false t := by
            simp [collapseWsAux, hd]
          rw [h1, ← h2, htail]
      have hsp : nonNlWs ' ' = true := by decide
      simp [collapseWsAux, ha, htrue, haSp, hsp]
    · simp [collapseWsAux, ha, htail]

lemma noWsPair_nl_left (b : Char) : noWsPair '\n' b := by
  intro hc
  have h0 : nonNlWs '\n' = false := by decide
  rw [h0] at hc
  exact Bool.false_ne_true hc.1

lemma noWsPair_nl_right (a : Char) : noWsPair a '\n' := by
  intro hc
  have h0 : nonNlWs '\n' = false := by decide
  rw [h0] at hc
  exact Bool.false_ne_true hc.2

lemma collapseNlAux_cons_nl_lt {k : Nat} (hk : k < 2) (rest : List Char) :
    collapseNlAux k ('\n' :: rest) = '\n' :: collapseNlAux (k + 1) rest := by
  simp [collapseNlAux, hk]

lemma collapseNlAux_cons_nl_ge {k : Nat} (hk : ¬k < 2) (rest : List Char) :
    collapseNlAux k ('\n' :: rest) = collapseNlAux (k + 1) rest := by
  simp [collapseNlAux, hk]

lemma collapseNlAux_cons_other {a : Char} (ha : ¬a = '\n') (k : Nat) (rest : List Char) :
    collapseNlAux k (a :: rest) = a :: collapseNlAux 0 rest := by
  simp [collapseNlAux, ha]

lemma mem_collapseNlAux {c : Char} : ∀ (k : Nat) (l : List Char),
    c ∈ collapseNlAux k l → c ∈ l := by
  intro k l
  induction l generalizing k with
  | nil => intro h; simp [collapseNlAux] at h
  | cons a rest ih =>
    intro h
    by_cases ha : a = '\n'
    · subst ha
      by_cases hk : k < 2
      · rw [collapseNlAux_cons_nl_lt hk] at h
        rcases List.mem_cons.mp h with h | h
        · exact h ▸ List.mem_cons_self _ _
        · exact List.mem_cons_of_mem _ (ih (k + 1) h)
      · rw [collapseNlAux_cons_nl_ge hk] at h
        exact List.mem_cons_of_mem _ (ih (k + 1) h)
    · rw [collapseNlAux_cons_other ha] at h
      rcases List.mem_cons.mp h with h | h
      · exact h ▸ List.mem_cons_self _ _
      · exact List.mem_cons_of_mem _ (ih 0 h)

lemma chain'_collapseNlAux : ∀ (k : Nat) (l : List Char),
    List.Chain' noWsPair l → List.Chain' noWsPair (collapseNlAux k l) := by
  intro k l
  induction l generalizing k with
  | nil => intro _; simp [collapseNlAux]
  | cons a rest ih =>
    intro hch
    have htail := List.Chain'.tail hch
    by_cases ha : a = '\n'
    · subst ha
      by_cases hk : k < 2
      · rw [collapseNlAux_cons_nl_lt hk]
        refine List.chain'_cons'.mpr ⟨?_, ih (k + 1) htail⟩
        intro b _
        exact noWsPair_nl_left b
      · rw [collapseNlAux_cons_nl_ge hk]
        exact ih (k + 1) htail
    · rw [collapseNlAux_cons_other ha]
      refine List.chain'_cons'.mpr ⟨?_, ih 0 htail⟩
      intro b hb
      cases rest with
      | nil => simp [collapseNlAux] at hb
      | cons e t =>
        by_cases he : e = '\n'
        · subst he
          rw [collapseNlAux_cons_nl_lt (by norm_num)] at hb
          simp only [List.head?_cons, Option.mem_def, Option.some_inj] at hb
          exact hb ▸ noWsPair_nl_right a
        · rw [collapseNlAux_cons_other he] at hb
          simp only [List.head?_cons, Option.mem_def, Option.some_inj] at hb
          exact hb ▸ (List.chain'_cons'.mp hch).1 e rfl

lemma leadNl_cons (a : Char) (t : List Char) :
    leadNl (a :: t) = if a = '\n' then leadNl t + 1 else 0 := by
  by_cases ha : a = '\n'
  · subst ha; simp [leadNl, List.takeWhile_cons, Nat.add_comm]
  · simp [leadNl, List.takeWhile_cons, ha]

lemma hasTripleNl_cons_of (a : Char) (t : List Char)
    (h1 : hasTripleNl t = false) (h2 : a = '\n' → leadNl t ≤ 1) :
    hasTripleNl (a :: t) = false := by
  match t with
  | [] => rfl
  | [x] => rfl
  | x :: y :: t' =>
    simp only [hasTripleNl, h1, Bool.or_false, Bool.and_eq_false_iff]
    by_cases ha : a = '\n'
    · have hlen := h2 ha
      by_cases hx : x = '\n'
      · by_cases hy : y = '\n'
        · exfalso
          rw [leadNl_cons, if_pos hx, leadNl_cons, if_pos hy] at hlen
          omega
        · exact Or.inr (beq_eq_false_iff_ne.mpr hy)
      · exact Or.inl (Or.inr (beq_eq_false_iff_ne.mpr hx))
    · exact Or.inl (Or.inl (beq_eq_false_iff_ne.mpr ha))

lemma hasTripleNl_tail {a : Char} {t : List Char} (h : hasTripleNl (a :: t) = false) :
    hasTripleNl t = false := by
  match t with
  | [] => rfl
  | [x] => rfl
  | x :: y :: t' =>
    simp only [hasTripleNl, Bool.or_eq_false_iff] at h
    exact h.2

lemma leadNl_le_two_of {l : List Char} (h : hasTripleNl l = false) : leadNl l ≤ 2 := by
  match l with
  | [] => simp [leadNl]
  | [a] =>
    rw [leadNl_cons]
    split <;> simp [leadNl]
  | [a, b] =>
    rw [leadNl_cons]
    split
    · rw [leadNl_cons]; split <;> simp [leadNl]
    · omega
  | a :: b :: c :: t =>
    by_cases ha : a = '\n'
    · by_cases hb : b = '\n'
      · by_cases hc : c = '\n'
        · exfalso
          simp only [hasTripleNl, Bool.or_eq_false_iff, Bool.and_eq_false_iff] at h
          rcases h.1 with (h' | h') | h' <;> simp [ha, hb, hc] at h'
        · rw [leadNl_cons, if_pos ha, leadNl_cons, if_pos hb, leadNl_cons, if_neg hc]
      · rw [leadNl_cons, if_pos ha, leadNl_cons, if_neg hb]; omega
    · rw [leadNl_cons, if_neg ha]; omega

lemma collapseNlAux_bound : ∀ (l : List Char) (k : Nat),
    leadNl (collapseNlAux k l) ≤ 2 - min k 2 ∧ hasTripleNl (collapseNlAux k l) = false := by
  intro l
  induction l with
  | nil => intro k; exact ⟨by simp [collapseNlAux, leadNl], rfl⟩
  | cons a rest ih =>
    intro k
    by_cases ha : a = '\n'
    · subst ha
      by_cases hk : k < 2
      · obtain ⟨ihb, iht⟩ := ih (k + 1)
        rw [collapseNlAux_cons_nl_lt hk]
        constructor
        · rw [leadNl_cons, if_pos rfl]
          omega
        · exact hasTripleNl_cons_of _ _ iht (fun _ => by omega)
      · rw [collapseNlAux_cons_nl_ge hk]
        obtain ⟨ihb, iht⟩ := ih (k + 1)
        exact ⟨by omega, iht⟩
    · rw [collapseNlAux_cons_other ha]
      obtain ⟨ihb, iht⟩ := ih 0
      constructor
      · rw [leadNl_cons, if_neg ha]; omega
      · exact hasTripleNl_cons_of _ _ iht (fun h => absurd h ha)

lemma collapseNlAux_id : ∀ (l : List Char) (k : Nat),
    hasTripleNl l = false → k + leadNl l ≤ 2 → collapseNlAux k l = l := by
  intro l
  induction l with
  | nil => intro k _ _; rfl
  | cons a rest ih =>
    intro k htr hlen
    by_cases ha : a = '\n'
    · subst ha
      rw [leadNl_cons, if_pos rfl] at hlen
      have hk : k < 2 := by omega
      rw [collapseNlAux_cons_nl_lt hk]
      rw [ih (k + 1) (hasTripleNl_tail htr) (by omega)]
    · rw [collapseNlAux_cons_other ha]
      have hrest : leadNl rest ≤ 2 := leadNl_le_two_of (hasTripleNl_tail htr)
      rw [ih 0 (hasTripleNl_tail htr) (by omega)]

lemma dropWhile_head_false {p : Char → Bool} : ∀ (l : List Char) (d : Char),
    (l.dropWhile p).head? = some d → p d = false := by
  intro l
  induction l with
  | nil => intro d h; simp at h
  | cons a t ih =>
    intro d h
    by_cases hpa : p a = true
    · rw [List.dropWhile_cons, if_pos hpa] at h
      exact ih d h
    · rw [List.dropWhile_cons, if_neg hpa] at h
      simp only [List.head?_cons, Option.some_inj] at h
      cases h
      simp only [Bool.not_eq_true] at hpa
      exact hpa

lemma dropWhile_eq_self_of_head {p : Char → Bool} (l : List Char)
    (h : ∀ d, l.head? = some d → p d = false) : l.dropWhile p = l := by
  cases l with
  | nil => rfl
  | cons a t =>
    have ha := h a rfl
    rw [List.dropWhile_cons, if_neg (by simp [ha])]

lemma stripEnd_isPre (l : List Char) : stripEnd l <+: l := by
  have h1 : (stripEnd l).reverse <:+ l.reverse := by
    unfold stripEnd
    rw [List.reverse_reverse]
    exact List.dropWhile_suffix isPyWs
  exact List.reverse_suffix.mp h1

lemma stripWs_isInfix (l : List Char) : stripWs l <:+: l := by
  have h1 : stripEnd (l.dropWhile isPyWs) <+: l.dropWhile isPyWs := stripEnd_isPre _
  have h2 : l.dropWhile isPyWs <:+ l := List.dropWhile_suffix isPyWs
  exact h1.isInfix.trans h2.isInfix

lemma isPre_head {l₁ l₂ : List Char} {d : Char} (h : l₁ <+: l₂)
    (hd : l₁.head? = some d) : l₂.head? = some d := by
  obtain ⟨t, rfl⟩ := h
  cases l₁ with
  | nil => simp at hd
  | cons a s => simpa using hd

lemma stripWs_head {l : List Char} {d : Char} (h : (stripWs l).head? = some d) :
    isPyWs d = false := by
  have h1 : (l.dropWhile isPyWs).head? = some d := isPre_head (stripEnd_isPre _) h
  exact dropWhile_head_false _ _ h1

lemma stripWs_last {l : List Char} {d : Char}
    (h : (stripWs l).reverse.head? = some d) : isPyWs d = false := by
  have hrev : (stripWs l).reverse = (l.dropWhile isPyWs).reverse.dropWhile isPyWs := by
    unfold stripWs stripEnd
    rw [List.reverse_reverse]
  rw [hrev] at h
  exact dropWhile_head_false _ _ h

lemma stripWs_id (l : List Char)
    (hhead : ∀ d, l.head? = some d → isPyWs d = false)
    (hlast : ∀ d, l.reverse.head? = some d → isPyWs d = false) : stripWs l = l := by
  unfold stripWs stripEnd
  rw [dropWhile_eq_self_of_head l hhead, dropWhile_eq_self_of_head l.reverse hlast,
    List.reverse_reverse]

lemma hasTripleNl_cons_mono (a : Char) {t : List Char} (h : hasTripleNl t = true) :
    hasTripleNl (a :: t) = true := by
  match t with
  | [] => simp [hasTripleNl] at h
  | [x] => simp [hasTripleNl] at h
  | x :: y :: t' => simp [hasTripleNl, h]

lemma hasTripleNl_append_left (xs t : List Char) (h : hasTripleNl t = true) :
    hasTripleNl (xs ++ t) = true := by
  induction xs with
  | nil => simpa using h
  | cons a s ih =>
    show hasTripleNl (a :: (s ++ t)) = true
    exact hasTripleNl_cons_mono a ih

lemma hasTripleNl_append_right (ys : List Char) : ∀ (t : List Char),
    hasTripleNl t = true → hasTripleNl (t ++ ys) = true := by
  intro t
  induction t with
  | nil => intro h; simp [hasTripleNl] at h
  | cons a t ih =>
    intro h
    cases t with
    | nil => simp [hasTripleNl] at h
    | cons b t2 =>
      cases t2 with
      | nil => simp [hasTripleNl] at h
      | cons c t3 =>
        simp only [hasTripleNl, Bool.or_eq_true] at h
        show hasTripleNl (a :: b :: c :: (t3 ++ ys)) = true
        simp only [hasTripleNl, Bool.or_eq_true]
        rcases h with h | h
        · exact Or.inl h
        · exact Or.inr (ih h)

lemma hasTripleNl_infix {l₁ l₂ : List Char} (hinf : l₁ <:+: l₂)
    (h : hasTripleNl l₂ = false) : hasTripleNl l₁ = false := by
  by_contra hne
  have h1 : hasTripleNl l₁ = true := by
    cases hb : hasTripleNl l₁
    · exact absurd hb hne
    · rfl
  obtain ⟨u, v, rfl⟩ := hinf
  have h2 := hasTripleNl_append_left u _ (hasTripleNl_append_right v l₁ h1)
  rw [List.append_assoc] at h
  rw [h] at h2
  exact Bool.false_ne_true h2

lemma normalizeChars_eq (l : List Char) (hl : ¬l = []) :
    normalizeChars l =
      stripWs (collapseNl (collapseWs (l.filter (fun c => !(c == nullChar))))) := by
  simp [normalizeChars, hl]

theorem normalizeChars_idem (l : List Char) :
    normalizeChars (normalizeChars l) = normalizeChars l := by
  by_cases hl : l = []
  · subst hl; rfl
  · rw [normalizeChars_eq l hl]
    set f := l.filter (fun c => !(c == nullChar)) with hf
    set w := collapseWs f with hw
    set n := collapseNl w with hn
    set r := stripWs n with hrdef
    by_cases hrnil : r = []
    · rw [hrnil]; rfl
    · rw [normalizeChars_eq r hrnil]
      have hinf : r <:+: n := stripWs_isInfix n
      have hmemw : ∀ c, c ∈ r → c ∈ w :=
        fun c hc => mem_collapseNlAux 0 w (hinf.sublist.subset hc)
      have hF : ∀ c ∈ r, (!(c == nullChar)) = true := by
        intro c hc
        rcases mem_collapseWsAux false f (hmemw c hc) with h | h
        · subst h; decide
        · rw [hf] at h
          exact (List.mem_filter.mp h).2
      have hI2 : ∀ c ∈ r, nonNlWs c = true → c = ' ' := fun c hc =>
        collapseWsAux_ws_eq_space false f (hmemw c hc)
      have hI3 : List.Chain' noWsPair r :=
        List.Chain'.infix (chain'_collapseNlAux 0 w (chain'_collapseWsAux false f)) hinf
      have hT : hasTripleNl r = false :=
        hasTripleNl_infix hinf (collapseNlAux_bound w 0).2
      have e1 : r.filter (fun c => !(c == nullChar)) = r := List.filter_eq_self.mpr hF
      rw [e1]
      have e2 : collapseWs r = r := collapseWsAux_id r hI2 hI3
      rw [e2]
      have e3 : collapseNl r = r :=
        collapseNlAux_id r 0 hT (by have := leadNl_le_two_of hT; omega)
      rw [e3]
      exact stripWs_id r (fun d hd => stripWs_head (hrdef ▸ hd))
        (fun d hd => stripWs_last (hrdef ▸ hd))

/-- C8: `normalize_text` is a total function of its input string — it is defined
by structural recursion on the character list, so it never raises, including on
the empty string and on strings containing null bytes — and it is idempotent:
`normalize_text (normalize_text x) = normalize_text x` for every string `x`. -/
theorem c8_normalize_text_total_idempotent (s : String) :
    normalize_text (normalize_text s) = normalize_text s := by
  show (⟨normalizeChars (normalize_text s).data⟩ : String) = ⟨normalizeChars s.data⟩
  have h : (normalize_text s).data = normalizeChars s.data := rfl
  rw [h, normalizeChars_idem]

/-! ## Exceptions — src/exceptions.py

The classes relevant to the claims: `StorageException`, the retrieval classes
(`QueryPreprocessingError`), pydantic's `ValidationError` raised by schema
construction, and any other exception type, each carrying a message. -/

inductive Exn where
  | storage (msg : String)
  | queryPreprocessing (msg : String)
  | validation (msg : String)
  | other (msg : String)
deriving DecidableEq, Repr

def Exn.isStorage : Exn → Bool
  | .storage _ => true
  | _ => false

def exnMessage : Exn → String
  | .storage m => m
  | .queryPreprocessing m => m
  | .validation m => m
  | .other m => m

/-! ## Freshness guard — `save_step` in src/ingestion/workflow.py

The step receives the launch-time `file_info` (with `file_hash` computed at
discovery).  If the file still exists on disk it re-hashes it; if the fresh
hash differs it logs a warning and returns without calling `save_documents`.
Otherwise (including when the file no longer exists) it proceeds to
`save_documents`, whose outcome `saveDocs` it propagates. -/

structure SaveStepTrace where
  rehashed : Bool
  saved : Bool
  warned : Bool
deriving DecidableEq, Repr

def save_step (fileExists : Bool) (currentHash launchHash : String)
    (saveDocs : Except Exn Unit) : Except Exn SaveStepTrace :=
  if fileExists then
    if currentHash ≠ launchHash then
      .ok ⟨true, false, true⟩
    else
      saveDocs.map (fun _ => ⟨true, true, false⟩)
  else
    saveDocs.map (fun _ => ⟨false, true, false⟩)

/-- C2: whenever the file still exists at save time and re-hashes to a value
different from the hash the workflow instance was launched with, `save_step`
writes no chunks (`saved = false`), raises no exception (the result is `.ok`),
only logs a warning (`warned = true`), and reports success — regardless of
what the store would have done. -/
theorem c2_freshness_guard_aborts_silently
    (currentHash launchHash : String) (saveDocs : Except Exn Unit)
    (h : currentHash ≠ launchHash) :
    save_step true currentHash launchHash saveDocs =
      .ok ⟨true, false, true⟩ := by
  simp [save_step, h]

theorem c2_witness :
    "sha-after-edit" ≠ "sha-at-launch" ∧
      save_step true "sha-after-edit" "sha-at-launch"
        (.error (.storage "never reached")) = .ok ⟨true, false, true⟩ :=
  ⟨by decide,
   c2_freshness_guard_aborts_silently "sha-after-edit" "sha-at-launch"
     (.error (.storage "never reached")) (by decide)⟩

/-- C10: the freshness guard runs only when the file still exists: when
`file_info.file_path` no longer exists, no re-hash comparison is performed
(`rehashed = false`) and the chunks are saved anyway; and (second conjunct)
the save is skipped-without-writing exactly when the file exists and its
current hash differs from the launch hash. -/
theorem c10_guard_only_when_file_exists
    (currentHash launchHash : String) (fileExists : Bool) :
    save_step false currentHash launchHash (.ok ()) = .ok ⟨false, true, false⟩ ∧
      ((∃ t, save_step fileExists currentHash launchHash (.ok ()) = .ok t ∧
          t.saved = false) ↔
        (fileExists = true ∧ currentHash ≠ launchHash)) := by
  constructor
  · simp [save_step, Except.map]
  · constructor
    · rintro ⟨t, ht, hsaved⟩
      cases fileExists with
      | false =>
        simp [save_step, Except.map] at ht
        rw [← ht] at hsaved
        simp at hsaved
      | true =>
        by_cases hh : currentHash ≠ launchHash
        · exact ⟨rfl, hh⟩
        · simp [save_step, hh, Except.map] at ht
          rw [← ht] at hsaved
          simp at hsaved
    · rintro ⟨he, hh⟩
      subst he
      exact ⟨⟨true, false, true⟩, by simp [save_step, hh], rfl⟩

theorem c10_witness :
    save_step false "h-now" "h-launch" (.ok ()) = .ok ⟨false, true, false⟩ :=
  (c10_guard_only_when_file_exists "h-now" "h-launch" false).1

/-! ## Chunk store — `save_documents` in src/ingestion/storage.py

State of the two logical tables, plus the autoincrement counter for
`source_documents.id`. -/

def EMBEDDING_MODEL_NAME : String := "all-MiniLM-L6-v2"

structure FileInfo where
  file_path : String
  file_hash : String
  file_extension : String
  file_size : Nat
deriving DecidableEq, Repr

structure ChunkCreate where
  chunk_id : String
  file_hash : String
  content : String
  embedding : List ℚ
  metadata : List (String × String)
deriving DecidableEq, Repr

structure SourceDocumentRec where
  id : Nat
  file_path : String
  file_hash : String
  file_size : Nat
  embedding_model : String
deriving DecidableEq, Repr

structure ChunkRec where
  chunk_id : String
  document_id : Nat
  content : String
  embedding : List ℚ
  metadata_ : List (String × String)
deriving DecidableEq, Repr

structure Store where
  docs : List SourceDocumentRec
  chunks : List ChunkRec
  nextId : Nat
deriving DecidableEq, Repr

/-- The session body of `save_documents`: the pure state transformation the
three insert/replace paths perform (all inside one transaction).
1. look up the SourceDocument by path; 2. if found with unchanged hash,
return with no changes; 3. if found with a changed hash, update the tracking
fields in place, delete that document's chunks and insert the new ones;
4. otherwise insert a new SourceDocument (flush yields its id) and the new
chunks referencing it. -/
def saveDocumentsBody (σ : Store) (fi : FileInfo) (cs : List ChunkCreate) : Store :=
  match σ.docs.find? (fun d => d.file_path == fi.file_path) with
  | some d =>
    if d.file_hash == fi.file_hash then
      σ
    else
      let docs' := σ.docs.map (fun e =>
        if e.id == d.id then
          { e with file_hash := fi.file_hash, file_size := fi.file_size,
                   embedding_model := EMBEDDING_MODEL_NAME }
        else e)
      let kept := σ.chunks.filter (fun c => !(c.document_id == d.id))
      { docs := docs',
        chunks := kept ++ cs.map (fun c =>
          ⟨c.chunk_id, d.id, c.content, c.embedding, c.metadata⟩),
        nextId := σ.nextId }
  | none =>
    let newDoc : SourceDocumentRec :=
      ⟨σ.nextId, fi.file_path, fi.file_hash, fi.file_size, EMBEDDING_MODEL_NAME⟩
    { docs := σ.docs ++ [newDoc],
      chunks := σ.chunks ++ cs.map (fun c =>
        ⟨c.chunk_id, σ.nextId, c.content, c.embedding, c.metadata⟩),
      nextId := σ.nextId + 1 }

structure SaveOutcome where
  result : Except Exn Unit
  finalStore : Store
deriving Repr

/-- The call `save_documents(file_info, chunks)` executed under
`db_manager.get_session()` (src/db/db_manager.py): the session body runs in a
transaction; `get_session` commits on normal exit, and on any exception rolls
back and re-raises.

`bodyFault` injects an exception raised by a database operation inside the
function's `try` block (`execute`, `flush`); the inner `except Exception`
wraps it as `StorageException("Database error: ...")`, which escapes the
session body, so the transaction is rolled back and the wrapped error
propagates.  `commitFault` injects an exception raised by `session.commit()`
itself inside `get_session` (with `autoflush=False` the chunk INSERTs are
flushed at commit time); `get_session` rolls back and re-raises it without
wrapping. -/
def save_documents (σ : Store) (fi : FileInfo) (cs : List ChunkCreate)
    (bodyFault : Option Exn) (commitFault : Option Exn) : SaveOutcome :=
  match bodyFault with
  | some e => ⟨.error (.storage ("Database error: " ++ exnMessage e)), σ⟩
  | none =>
    match commitFault with
    | some e => ⟨.error e, σ⟩
    | none => ⟨.ok (), saveDocumentsBody σ fi cs⟩

/-- C3: when a SourceDocument already exists at the file's path and its stored
hash equals the descriptor's hash, `save_documents` is a no-op: it reports
success and the store is unchanged — no chunks inserted, no chunks deleted,
tracking record untouched. -/
theorem c3_save_unchanged_hash_noop
    (σ : Store) (fi : FileInfo) (cs : List ChunkCreate) (d : SourceDocumentRec)
    (hfind : σ.docs.find? (fun e => e.file_path == fi.file_path) = some d)
    (hhash : d.file_hash = fi.file_hash) :
    save_documents σ fi cs none none = ⟨.ok (), σ⟩ := by
  simp [save_documents, saveDocumentsBody, hfind, hhash]

def c3Doc : SourceDocumentRec := ⟨1, "/docs/a.txt", "hash-a", 10, EMBEDDING_MODEL_NAME⟩

def c3Store : Store := ⟨[c3Doc], [⟨"c1", 1, "text", [], []⟩], 2⟩

def c3File : FileInfo := ⟨"/docs/a.txt", "hash-a", ".txt", 10⟩

theorem c3_witness :
    c3Store.docs.find? (fun e => e.file_path == c3File.file_path) = some c3Doc ∧
      save_documents c3Store c3File [⟨"c2", "hash-a", "more", [], []⟩] none none =
        ⟨.ok (), c3Store⟩ :=
  ⟨by decide,
   c3_save_unchanged_hash_noop c3Store c3File [⟨"c2", "hash-a", "more", [], []⟩]
     c3Doc (by decide) rfl⟩

/-- C5 as written is refuted by a commit-time failure: here the store raises
`.other "connection reset during commit"` while committing the transaction of
a save; the save call raises (result is that very error), but the surfaced
exception is not a StorageException — `get_session` re-raises commit-time
exceptions unwrapped, the inner `except` of `save_documents` only wraps
exceptions raised before commit. -/
theorem c5_counterexample :
    (save_documents c3Store c3File [] none
        (some (.other "connection reset during commit"))).result =
      .error (.other "connection reset during commit") ∧
      Exn.isStorage (.other "connection reset during commit") = false :=
  ⟨rfl, rfl⟩

/-- C5 amended: every `save_documents` call runs in one transaction — on any
exception the transaction aborts and the store is exactly as if the call never
happened; an exception raised inside the save body surfaces wrapped as a
StorageException, while an exception raised at commit time surfaces to the
caller unwrapped (still after rollback). -/
theorem c5_transactional_save
    (σ : Store) (fi : FileInfo) (cs : List ChunkCreate) (bf cf : Option Exn) :
    (∀ e, (save_documents σ fi cs bf cf).result = .error e →
        (save_documents σ fi cs bf cf).finalStore = σ) ∧
    (∀ e, bf = some e →
        (save_documents σ fi cs bf cf).result =
          .error (.storage ("Database error: " ++ exnMessage e))) ∧
    (bf = none → ∀ e, cf = some e →
        (save_documents σ fi cs bf cf).result = .error e) := by
  refine ⟨?_, ?_, ?_⟩
  · intro e he
    match hbf : bf with
    | some b => simp [save_documents, hbf]
    | none =>
      match hcf : cf with
      | some c => simp [save_documents, hbf, hcf]
      | none => simp [save_documents, hbf, hcf] at he
  · intro e he
    subst he
    simp [save_documents]
  · intro hbf e hcf
    subst hbf; subst hcf
    simp [save_documents]

theorem c5_witness :
    (save_documents c3Store c3File [] (some (.other "deadlock detected")) none).result =
      .error (.storage "Database error: deadlock detected") ∧
      (save_documents c3Store c3File [] (some (.other "deadlock detected")) none).finalStore =
        c3Store :=
  ⟨(c5_transactional_save c3Store c3File [] (some (.other "deadlock detected")) none).2.1
      _ rfl,
   (c5_transactional_save c3Store c3File [] (some (.other "deadlock detected")) none).1
      _ ((c5_transactional_save c3Store c3File [] (some (.other "deadlock detected")) none).2.1
        _ rfl)⟩

/-! ## Chunk id — `generate_chunk_id` in src/ingestion/workflow.py

    def generate_chunk_id(file_hash: str, index: int) -> str:
        return hashlib.sha256(f"{file_hash}:{index}".encode()).hexdigest()[:16]

`hashlib.sha256` is standard SHA-256 (FIPS 180-4), implemented below over
byte lists with arithmetic modulo 2^32; `str.encode()` is UTF-8. -/

def M32 : Nat := 4294967296

def rotr32 (n x : Nat) : Nat := (x / 2 ^ n + x * 2 ^ (32 - n)) % M32

def not32 (x : Nat) : Nat := 0xFFFFFFFF ^^^ x

def ch32 (x y z : Nat) : Nat := (x &&& y) ^^^ (not32 x &&& z)

def maj32 (x y z : Nat) : Nat := (x &&& y) ^^^ (x &&& z) ^^^ (y &&& z)

def bigSigma0 (x : Nat) : Nat := rotr32 2 x ^^^ rotr32 13 x ^^^ rotr32 22 x

def bigSigma1 (x : Nat) : Nat := rotr32 6 x ^^^ rotr32 11 x ^^^ rotr32 25 x

def smallSigma0 (x : Nat) : Nat := rotr32 7 x ^^^ rotr32 18 x ^^^ x / 2 ^ 3

def smallSigma1 (x : Nat) : Nat := rotr32 17 x ^^^ rotr32 19 x ^^^ x / 2 ^ 10

def sha256K : List Nat :=
  [1116352408, 1899447441, 3049323471, 3921009573, 961987163,
   1508970993, 2453635748, 2870763221, 3624381080, 310598401,
   607225278, 1426881987, 1925078388, 2162078206, 2614888103,
   3248222580, 3835390401, 4022224774, 264347078, 604807628,
   770255983, 1249150122, 1555081692, 1996064986, 2554220882,
   2821834349, 2952996808, 3210313671, 3336571891, 3584528711,
   113926993, 338241895, 666307205, 773529912, 1294757372,
   1396182291, 1695183700, 1986661051, 2177026350, 2456956037,
   2730485921, 2820302411, 3259730800, 3345764771, 3516065817,
   3600352804, 4094571909, 275423344, 430227734, 506948616,
   659060556, 883997877, 958139571, 1322822218, 1537002063,
   1747873779, 1955562222, 2024104815, 2227730452, 2361852424,
   2428436474, 2756734187, 3204031479, 3329325298]

/-- UTF-8 encoding of one character (what Python `str.encode()` does). -/
def utf8Bytes (c : Char) : List Nat :=
  let n := c.toNat
  if n < 0x80 then [n]
  else if n < 0x800 then [0xC0 + n / 0x40, 0x80 + n % 0x40]
  else if n < 0x10000 then
    [0xE0 + n / 0x1000, 0x80 + n / 0x40 % 0x40, 0x80 + n % 0x40]
  else
    [0xF0 + n / 0x40000, 0x80 + n / 0x1000 % 0x40, 0x80 + n / 0x40 % 0x40,
     0x80 + n % 0x40]

def strBytes (s : String) : List Nat := (s.data.map utf8Bytes).flatten

def lenBytes64 (n : Nat) : List Nat :=
  [n / 2 ^ 56 % 256, n / 2 ^ 48 % 256, n / 2 ^ 40 % 256, n / 2 ^ 32 % 256,
   n / 2 ^ 24 % 256, n / 2 ^ 16 % 256, n / 2 ^ 8 % 256, n % 256]

/-- SHA-256 padding: append `0x80`, zero bytes to reach 56 mod 64, then the
bit length as an 8-byte big-endian integer. -/
def padMessage (msg : List Nat) : List Nat :=
  let z := (119 - msg.length % 64) % 64
  msg ++ [0x80] ++ List.replicate z 0 ++ lenBytes64 (msg.length * 8)

/-- Split into 64-byte blocks (fuel-driven; called with fuel = length). -/
def toBlocks : Nat → List Nat → List (List Nat)
  | 0, _ => []
  | _ + 1, [] => []
  | fuel + 1, l => l.take 64 :: toBlocks fuel (l.drop 64)

/-- Big-endian 32-bit words from groups of four bytes. -/
def bytesToWords : List Nat → List Nat
  | b0 :: b1 :: b2 :: b3 :: rest =>
    (b0 * 0x1000000 + b1 * 0x10000 + b2 * 0x100 + b3) :: bytesToWords rest
  | _ => []

/-- Extend the 16-word message schedule by `n` further words. -/
def buildSchedule : Nat → List Nat → List Nat
  | 0, w => w
  | n + 1, w =>
    let t := (smallSigma1 (w.getD (w.length - 2) 0) + w.getD (w.length - 7) 0 +
              smallSigma0 (w.getD (w.length - 15) 0) + w.getD (w.length - 16) 0) % M32
    buildSchedule n (w ++ [t])

def Word8 : Type := Nat × Nat × Nat × Nat × Nat × Nat × Nat × Nat

def compressStep (st : Word8) (kw : Nat × Nat) : Word8 :=
  let (a, b, c, d, e, f, g, h) := st
  let T1 := (h + bigSigma1 e + ch32 e f g + kw.1 + kw.2) % M32
  let T2 := (bigSigma0 a + maj32 a b c) % M32
  ((T1 + T2) % M32, a, b, c, (d + T1) % M32, e, f, g)

def compressBlock (H : Word8) (block : List Nat) : Word8 :=
  let w := buildSchedule 48 (bytesToWords block)
  let (a, b, c, d, e, f, g, h) := (sha256K.zip w).foldl compressStep H
  let (h0, h1, h2, h3, h4, h5, h6, h7) := H
  ((h0 + a) % M32, (h1 + b) % M32, (h2 + c) % M32, (h3 + d) % M32,
   (h4 + e) % M32, (h5 + f) % M32, (h6 + g) % M32, (h7 + h) % M32)

def sha256Run (msg : List Nat) : Word8 :=
  let padded := padMessage msg
  (toBlocks padded.length padded).foldl compressBlock
    (1779033703, 3144134277, 1013904242, 2773480762,
     1359893119, 2600822924, 528734635, 1541459225)

def hexDigitChar (n : Nat) : Char :=
  if n < 10 then Char.ofNat (48 + n) else Char.ofNat (87 + n)

def word32Hex (w : Nat) : List Char :=
  [hexDigitChar (w / 0x10000000 % 16), hexDigitChar (w / 0x1000000 % 16),
   hexDigitChar (w / 0x100000 % 16), hexDigitChar (w / 0x10000 % 16),
   hexDigitChar (w / 0x1000 % 16), hexDigitChar (w / 0x100 % 16),
   hexDigitChar (w / 0x10 % 16), hexDigitChar (w % 16)]

def sha256hexChars (msg : List Nat) : List Char :=
  let t := sha256Run msg
  word32Hex t.1 ++ word32Hex t.2.1 ++ word32Hex t.2.2.1 ++ word32Hex t.2.2.2.1 ++
  word32Hex t.2.2.2.2.1 ++ word32Hex t.2.2.2.2.2.1 ++ word32Hex t.2.2.2.2.2.2.1 ++
  word32Hex t.2.2.2.2.2.2.2

/-- Model of `hashlib.sha256(s.encode()).hexdigest()`. -/
def sha256hex (s : String) : String := ⟨sha256hexChars (strBytes s)⟩

/-- The function `generate_chunk_id(file_hash, index)`:
`hashlib.sha256(f"{file_hash}:{index}".encode()).hexdigest()[:16]`. -/
def generate_chunk_id (file_hash : String) (index : Nat) : String :=
  ⟨(sha256hex (file_hash ++ ":" ++ toString index)).data.take 16⟩

lemma sha256hexChars_length (msg : List Nat) : (sha256hexChars msg).length = 64 := by
  simp [sha256hexChars, word32Hex, List.length_append]

/-- C4: the persisted chunk id is the SHA-256 digest of the string
`file_hash ++ ":" ++ index`, truncated to the fixed length 16; it is a pure,
deterministic function of `(file_hash, index)` — byte-identical whenever the
arguments coincide, never randomly generated — and always exactly 16
characters long. -/
theorem c4_chunk_id_deterministic (h : String) (i : Nat) :
    generate_chunk_id h i =
      ⟨(sha256hex (h ++ ":" ++ toString i)).data.take 16⟩ ∧
    (generate_chunk_id h i).length = 16 ∧
    (∀ h2 i2, h2 = h → i2 = i → generate_chunk_id h2 i2 = generate_chunk_id h i) := by
  refine ⟨rfl, ?_, ?_⟩
  · show ((sha256hex (h ++ ":" ++ toString i)).data.take 16).length = 16
    have hlen : (sha256hex (h ++ ":" ++ toString i)).data.length = 64 :=
      sha256hexChars_length _
    rw [List.length_take, hlen]
    rfl
  · intro h2 i2 hh hi
    rw [hh, hi]

theorem c4_witness : (generate_chunk_id "hash-a" 0).length = 16 :=
  (c4_chunk_id_deterministic "hash-a" 0).2.1

/-! ## Similarity search — src/retrieval/similarity_search.py

`search_similar_chunks` first builds the SQL text and parameter dict:
a base query with `WHERE 1=1`, then — for each key of
`metadata_filter.model_dump(exclude_unset=True)` — either the special
`file_type` pattern clause, or a clause obtained by interpolating the key
itself into the SQL f-string (`f" AND c.metadata->>'{key}' = :{key}_val"`);
then the optional distance threshold, then ORDER BY / LIMIT.  The
`RetrievalFilter` schema declares `source` and `file_type` but is configured
with `extra='allow'`, so extra keys flow straight into this loop; the declared
`file_type` field always carries a `FileType` enum value. -/

inductive FileType where
  | pdf
  | txt
deriving DecidableEq, Repr

def FileType.value : FileType → String
  | .pdf => "pdf"
  | .txt => "txt"

inductive FilterVal where
  | str (s : String)
  | strList (l : List String)
  | fileType (ft : FileType)
deriving DecidableEq, Repr

inductive ParamV where
  | s (v : String)
  | n (v : Nat)
  | q (v : Rat)
  | emb (v : List Rat)
  | list (v : List String)
deriving DecidableEq, Repr

def baseSQL : String :=
  "\n        SELECT \n            c.chunk_id,\n            c.content,\n            c.metadata,\n            c.document_id,\n            c.created_at,\n            sd.file_path,\n            1 - (c.embedding <=> :query_embedding) AS similarity\n        FROM chunks c\n        LEFT JOIN source_documents sd ON c.document_id = sd.id\n        WHERE 1=1\n    "

def orderLimitSQL : String :=
  "\n        ORDER BY c.embedding <=> :query_embedding\n        LIMIT :top_k\n    "

def filterClause (acc : String × List (String × ParamV)) (kv : String × FilterVal) :
    String × List (String × ParamV) :=
  let key := kv.1
  if key = "file_type" then
    match kv.2 with
    | .fileType ft =>
      (acc.1 ++ " AND c.metadata->>'source' ILIKE :file_type_pattern",
       acc.2 ++ [("file_type_pattern", .s ("%." ++ ft.value))])
    | .str v =>
      (acc.1 ++ " AND c.metadata->>'source' ILIKE :file_type_pattern",
       acc.2 ++ [("file_type_pattern", .s ("%." ++ v))])
    | .strList l =>
      (acc.1 ++ " AND c.metadata->>'source' ILIKE :file_type_pattern",
       acc.2 ++ [("file_type_pattern", .list l)])
  else
    match kv.2 with
    | .strList l =>
      (acc.1 ++ " AND c.metadata->>'" ++ key ++ "' = ANY(:" ++ key ++ "_val)",
       acc.2 ++ [(key ++ "_val", .list l)])
    | .str v =>
      (acc.1 ++ " AND c.metadata->>'" ++ key ++ "' = :" ++ key ++ "_val",
       acc.2 ++ [(key ++ "_val", .s v)])
    | .fileType ft =>
      (acc.1 ++ " AND c.metadata->>'" ++ key ++ "' = :" ++ key ++ "_val",
       acc.2 ++ [(key ++ "_val", .s ft.value)])

def buildSearchQuery (queryEmbedding : List Rat) (top_k : Nat)
    (distanceThreshold : Option Rat)
    (metadataFilter : Option (List (String × FilterVal))) :
    String × List (String × ParamV) :=
  let params : List (String × ParamV) :=
    [("query_embedding", .emb queryEmbedding), ("top_k", .n top_k)]
  let acc :=
    match metadataFilter with
    | none => (baseSQL, params)
    | some filterDict => filterDict.foldl filterClause (baseSQL, params)
  let acc :=
    match distanceThreshold with
    | none => acc
    | some t =>
      (acc.1 ++ " AND (c.embedding <=> :query_embedding) < :threshold",
       acc.2 ++ [("threshold", ParamV.q t)])
  (acc.1 ++ orderLimitSQL, acc.2)

/-- Substring test (Python `in` on strings / checking the built SQL). -/
def startsWithChars : List Char → List Char → Bool
  | [], _ => true
  | _ :: _, [] => false
  | a :: s, b :: t => a == b && startsWithChars s t

def containsChars (sub : List Char) : List Char → Bool
  | [] => sub.isEmpty
  | b :: t => startsWithChars sub (b :: t) || containsChars sub t

def strContains (s sub : String) : Bool := containsChars sub.data s.data

/-! ### Result construction and error wrapping -/

structure RowR where
  chunk_id : String
  content : String
  metadata : List (String × String)
  document_id : Option Nat
  created_at : Nat
  file_path : Option String
  distance : Rat
deriving DecidableEq, Repr

structure RetrievalResult where
  chunk_id : String
  content : String
  metadata : List (String × String)
  document_id : Option Nat
  created_at : Nat
  file_path : Option String
  similarity : Rat
  rerank_score : Option Rat
deriving DecidableEq, Repr

/-- Constructing a `RetrievalResult` (schemas/retrieval.py): pydantic enforces
`similarity: float = Field(ge=0, le=1)`; the SELECT returns
`1 - (c.embedding <=> :query_embedding) AS similarity`, so the value is
`1 - distance`.  An out-of-range value raises a ValidationError. -/
def mkRetrievalResult (r : RowR) : Except Exn RetrievalResult :=
  let sim := 1 - r.distance
  if 0 <= sim && sim <= 1 then
    .ok ⟨r.chunk_id, r.content, r.metadata, r.document_id, r.created_at,
         r.file_path, sim, none⟩
  else
    .error (.validation "similarity out of pydantic range [0, 1]")

/-- The list comprehension over fetched rows: stops at the first failing
construction. -/
def buildResults : List RowR → Except Exn (List RetrievalResult)
  | [] => .ok []
  | r :: rest =>
    match mkRetrievalResult r with
    | .error e => .error e
    | .ok x =>
      match buildResults rest with
      | .error e => .error e
      | .ok xs => .ok (x :: xs)

/-- The `try/except` of `search_similar_chunks`: a `StorageException` passes
through unchanged, anything else is wrapped as
`StorageException("Similarity search failed: ...")`. -/
def wrapSearchErrors (res : Except Exn (List RetrievalResult)) :
    Except Exn (List RetrievalResult) :=
  match res with
  | .ok a => .ok a
  | .error e =>
    if e.isStorage then .error e
    else .error (.storage ("Similarity search failed: " ++ exnMessage e))

/-- Model of `search_similar_chunks(query_embedding, top_k, distance_threshold,
metadata_filter)`: builds the query (this phase validates nothing and cannot
raise), executes it — `rows` models what the store returns for the built
query — and converts rows to results under the exception wrapper. -/
def search_similar_chunks (queryEmbedding : List Rat) (top_k : Nat)
    (distanceThreshold : Option Rat)
    (metadataFilter : Option (List (String × FilterVal)))
    (rows : List RowR) : Except Exn (List RetrievalResult) :=
  let _query := buildSearchQuery queryEmbedding top_k distanceThreshold metadataFilter
  wrapSearchErrors (buildResults rows)

def Exn.isQueryPrep : Exn → Bool
  | .queryPreprocessing _ => true
  | _ => false

def resultIsQueryPrep (res : Except Exn (List RetrievalResult)) : Bool :=
  match res with
  | .error e => e.isQueryPrep
  | .ok _ => false

/-- The metadata filter of the repository's own unit test
`test_search_metadata_filter_rejects_unknown_key`:
`RetrievalFilter(source="test.pdf", foo="bar")`. -/
def c1Filter : List (String × FilterVal) :=
  [("source", .str "test.pdf"), ("foo", .str "bar")]

lemma wrapSearchErrors_not_queryPrep (res : Except Exn (List RetrievalResult)) :
    resultIsQueryPrep (wrapSearchErrors res) = false := by
  match res with
  | .ok a => rfl
  | .error (.storage m) => rfl
  | .error (.queryPreprocessing m) => rfl
  | .error (.validation m) => rfl
  | .error (.other m) => rfl

set_option maxRecDepth 8000 in
/-- C1 fails on the code: with the unrecognized filter key `foo` (the exact
input of the repository's failing unit test), `search_similar_chunks` does
not reject the filter — the built SQL interpolates the raw key `foo` as a
field name (`AND c.metadata->>'foo' = :foo_val` occurs in the query text),
the store query is constructed and executed, and no QueryPreprocessingError
is ever produced, whatever the store returns. -/
theorem c1_unknown_filter_key_interpolated_not_rejected :
    strContains (buildSearchQuery [(1 : Rat)/10] 5 none (some c1Filter)).1
        "AND c.metadata->>'foo' = :foo_val" = true ∧
    ∀ rows : List RowR,
      resultIsQueryPrep
        (search_similar_chunks [(1 : Rat)/10] 5 none (some c1Filter) rows) = false := by
  constructor
  · rfl
  · intro rows
    exact wrapSearchErrors_not_queryPrep (buildResults rows)

/-- C9: every result returned by a successful `search_similar_chunks` call has
its similarity within the schema bound `[0, 1]`; and whenever some fetched
row's raw cosine distance exceeds 1 (so `1 - distance` is negative), the call
returns no partial or clamped result set — it raises a StorageException,
because the ValidationError from result construction is wrapped by the
generic handler. -/
theorem c9_similarity_bounds_or_storage_error (queryEmbedding : List Rat)
    (top_k : Nat) (distanceThreshold : Option Rat)
    (metadataFilter : Option (List (String × FilterVal))) (rows : List RowR) :
    (∀ res, search_similar_chunks queryEmbedding top_k distanceThreshold
        metadataFilter rows = .ok res →
      ∀ r ∈ res, 0 ≤ r.similarity ∧ r.similarity ≤ 1) ∧
    ((∃ r ∈ rows, 1 - r.distance < 0) →
      ∃ m, search_similar_chunks queryEmbedding top_k distanceThreshold
        metadataFilter rows = .error (.storage m)) := by
  constructor
  · intro res hres r hr
    have hres2 : wrapSearchErrors (buildResults rows) = .ok res := hres
    have hbuild : buildResults rows = .ok res := by
      match hb : buildResults rows with
      | .ok a => rw [hb] at hres2; unfold wrapSearchErrors at hres2; cases hres2; rfl
      | .error e =>
        rw [hb] at hres2
        unfold wrapSearchErrors at hres2
        by_cases hs : e.isStorage = true <;> simp [hs] at hres2
    clear hres hres2
    induction rows generalizing res with
    | nil =>
      cases hbuild
      simp at hr
    | cons row rest ih =>
      unfold buildResults at hbuild
      match hmk : mkRetrievalResult row with
      | .error e => rw [hmk] at hbuild; cases hbuild
      | .ok x =>
        rw [hmk] at hbuild
        match hrec : buildResults rest with
        | .error e => rw [hrec] at hbuild; cases hbuild
        | .ok xs =>
          rw [hrec] at hbuild
          cases hbuild
          rcases List.mem_cons.mp hr with h | h
          · subst h
            unfold mkRetrievalResult at hmk
            by_cases hok : (0 <= 1 - row.distance && 1 - row.distance <= 1) = true
            · rw [if_pos hok] at hmk
              cases hmk
              simp only [Bool.and_eq_true, decide_eq_true_eq] at hok
              exact hok
            · rw [if_neg hok] at hmk
              cases hmk
          · exact ih xs h hrec
  · rintro ⟨r, hrmem, hneg⟩
    have hbad : ∃ e, buildResults rows = .error e := by
      induction rows with
      | nil => simp at hrmem
      | cons row rest ih =>
        rcases List.mem_cons.mp hrmem with h | h
        · subst h
          have : mkRetrievalResult r = .error (.validation "similarity out of pydantic range [0, 1]") := by
            unfold mkRetrievalResult
            rw [if_neg]
            intro hok
            simp only [Bool.and_eq_true, decide_eq_true_eq] at hok
            exact absurd hok.1 (by exact not_le.mpr hneg)
          exact ⟨_, by unfold buildResults; rw [this]⟩
        · rcases ih h with ⟨e, he⟩
          refine ⟨?_, ?_⟩
          case _ =>
            exact match mkRetrievalResult row with
            | .error e2 => e2
            | .ok _ => e
          unfold buildResults
          match hmk : mkRetrievalResult row with
          | .error e2 => rfl
          | .ok x => rw [he]
    rcases hbad with ⟨e, he⟩
    show ∃ m, wrapSearchErrors (buildResults rows) = .error (.storage m)
    rw [he]
    match e with
    | .storage m => exact ⟨m, rfl⟩
    | .queryPreprocessing m => exact ⟨"Similarity search failed: " ++ m, rfl⟩
    | .validation m => exact ⟨"Similarity search failed: " ++ m, rfl⟩
    | .other m => exact ⟨"Similarity search failed: " ++ m, rfl⟩

def c9BadRow : RowR := ⟨"c9", "text", [], some 1, 0, some "/docs/a.txt", 3/2⟩

theorem c9_witness :
    (∃ r ∈ [c9BadRow], 1 - r.distance < 0) ∧
      ∃ m, search_similar_chunks [] 5 none none [c9BadRow] = .error (.storage m) :=
  ⟨⟨c9BadRow, List.mem_cons_self _ _, by norm_num [c9BadRow]⟩,
   (c9_similarity_bounds_or_storage_error [] 5 none none [c9BadRow]).2
     ⟨c9BadRow, List.mem_cons_self _ _, by norm_num [c9BadRow]⟩⟩

/-! ## Generation retry — `_invoke_llm_with_retry` in src/generation/service.py

The function classifies provider errors into the custom exception classes:
a lowered error string containing "rate limit" or "429" is a rate-limit
error; `re.search(r"retry in (\\d+\\.?\\d*)s", error_str)` extracts the
provider-suggested wait; if that wait exceeds 5 seconds the function raises a
plain `LLMError` instead ("fail fast").  The tenacity decorator retries only
`LLMRateLimitError` and `LLMTimeoutError` (a plain `LLMError` is terminal),
up to 6 attempts, waiting `wait_smart_backoff` between attempts, and
re-raises the final exception. -/

inductive LLMExn where
  | rateLimit (msg : String) (retryAfter : Option Rat)
  | timeout (msg : String)
  | llmError (msg : String)
deriving DecidableEq, Repr

/-- Retry predicate `retry_if_exception_type((LLMRateLimitError, LLMTimeoutError))`. -/
def retryable : LLMExn → Bool
  | .rateLimit _ _ => true
  | .timeout _ => true
  | .llmError _ => false

def digitsToNat (ds : List Char) : Nat :=
  ds.foldl (fun acc c => acc * 10 + (c.toNat - 48)) 0

/-- Match `(\\d+\\.?\\d*)s` at the current position, as Python's regex engine
does (greedy with backtracking over the optional dot), returning the float
value of the captured group. -/
def matchNumberS (l : List Char) : Option Rat :=
  let ds := l.takeWhile Char.isDigit
  let rest := l.dropWhile Char.isDigit
  if ds.isEmpty then none
  else
    match rest with
    | '.' :: rest2 =>
      let fs := rest2.takeWhile Char.isDigit
      let rest3 := rest2.dropWhile Char.isDigit
      match rest3 with
      | 's' :: _ =>
        some ((digitsToNat ds : Rat) + (digitsToNat fs : Rat) / 10 ^ fs.length)
      | _ => none
    | 's' :: _ => some (digitsToNat ds)
    | _ => none

/-- Model of `re.search` for the pattern (retry in (number)s): scan left to right for
the literal "retry in " followed by a number and `s`. -/
def findRetryIn : List Char → Option Rat
  | [] => none
  | a :: t =>
    if startsWithChars "retry in ".data (a :: t) then
      match matchNumberS ((a :: t).drop 9) with
      | some r => some r
      | none => findRetryIn t
    else findRetryIn t

/-- Python `str.lower()` (the error strings classified here are ASCII). -/
def pyLower (s : String) : String := ⟨s.data.map Char.toLower⟩

/-- The `except` block of `_invoke_llm_with_retry`: classify the provider
error string.  Messages carry the original string (the checks use its
lowercase form); the abort branch carries the "Rate limit wait too long"
message. -/
def classifyInvokeError (e : String) : LLMExn :=
  let s := pyLower e
  if strContains s "rate limit" || strContains s "429" then
    match findRetryIn s.data with
    | some r =>
      if r > 5 then
        .llmError ("Rate limit wait too long (" ++ toString r ++
          "s > 5s) - aborting retry to show documents.")
      else .rateLimit e (some r)
    | none => .rateLimit e none
  else if strContains s "timeout" || strContains s "timed out" then .timeout e
  else .llmError e

/-- Tenacity `wait_exponential(multiplier=1, min=2, max=10)` at a given attempt
number. -/
def expWait (attempt : Nat) : Rat := max 2 (min ((2 : Rat) ^ attempt) 10)

/-- Custom `wait_smart_backoff`: take the provider-suggested wait + 1s when a
rate-limit error carries one (Python truthiness: a 0.0 wait falls back to the
exponential value). -/
def waitSmart (exn : LLMExn) (attempt : Nat) : Rat :=
  let e := expWait attempt
  match exn with
  | .rateLimit _ (some r) => if r ≠ 0 then max e (r + 1) else e
  | _ => e

structure RetryRun (α : Type) where
  attempts : Nat
  sleeps : List Rat
  result : Except LLMExn α

/-- The tenacity loop: `outcomes n` is what the n-th `llm.ainvoke` attempt
does (1-based).  `fuel` is the number of retries still allowed
(`stop_after_attempt(6)` → 5 retries after the first attempt).  Failed
attempts are classified; retryable classes sleep `wait_smart_backoff` and try
again, anything else (and fuel exhaustion, `reraise=True`) surfaces the
classified exception. -/
def invokeLoop (outcomes : Nat → Except String α) :
    Nat → Nat → List Rat → RetryRun α
  | fuel, attempt, sleeps =>
    match outcomes attempt with
    | .ok a => ⟨attempt, sleeps.reverse, .ok a⟩
    | .error e =>
      let exn := classifyInvokeError e
      match fuel with
      | 0 => ⟨attempt, sleeps.reverse, .error exn⟩
      | fuel2 + 1 =>
        if retryable exn then
          invokeLoop outcomes fuel2 (attempt + 1) (waitSmart exn attempt :: sleeps)
        else ⟨attempt, sleeps.reverse, .error exn⟩

def invokeLLMWithRetry (outcomes : Nat → Except String α) : RetryRun α :=
  invokeLoop outcomes 5 1 []

/-- The `except LLMError` branch of `generate_answer`: every classified LLM error
(all three classes derive from `LLMError`) is caught and turned into the
degraded answer that surfaces the retrieved context, instead of re-raising. -/
def generate_answer_degrades (res : Except LLMExn String) (contextText : String) :
    String :=
  match res with
  | .ok answer => answer
  | .error _ =>
    "I'm having trouble generating a detailed response. Here are the relevant documents I found:\n\n"
      ++ contextText

lemma classify_abort {e : String} {r : Rat}
    (h2 : strContains (pyLower e) "rate limit" = true ∨ strContains (pyLower e) "429" = true)
    (h3 : findRetryIn (pyLower e).data = some r) (h4 : r > 5) :
    classifyInvokeError e =
      .llmError ("Rate limit wait too long (" ++ toString r ++
        "s > 5s) - aborting retry to show documents.") := by
  unfold classifyInvokeError
  rw [if_pos (by rcases h2 with h | h <;> simp [h]), h3]
  exact if_pos h4

/-- C6: when the first model invocation fails with a rate-limit error whose
provider-suggested wait exceeds the 5-second ceiling, the orchestrator aborts
retrying immediately: exactly one attempt is performed, no sleep happens at
all (in particular it never sleeps the suggested duration), and the failure
is the terminal plain-`LLMError` class — which the generation orchestrator
catches and converts into the degraded answer rather than a raw error. -/
theorem c6_rate_limit_ceiling_aborts {α : Type}
    (outcomes : Nat → Except String α) (e : String) (r : Rat)
    (h1 : outcomes 1 = .error e)
    (h2 : strContains (pyLower e) "rate limit" = true ∨ strContains (pyLower e) "429" = true)
    (h3 : findRetryIn (pyLower e).data = some r) (h4 : r > 5) :
    invokeLLMWithRetry outcomes =
      ⟨1, [], .error (.llmError ("Rate limit wait too long (" ++ toString r ++
        "s > 5s) - aborting retry to show documents."))⟩ ∧
    (∀ ctx res, invokeLLMWithRetry (fun n => outcomes n) = res →
      generate_answer_degrades (res.result.map (fun _ => "")) ctx =
        "I'm having trouble generating a detailed response. Here are the relevant documents I found:\n\n"
          ++ ctx) := by
  have habort := classify_abort h2 h3 h4
  have hrun : invokeLLMWithRetry outcomes =
      ⟨1, [], .error (.llmError ("Rate limit wait too long (" ++ toString r ++
        "s > 5s) - aborting retry to show documents."))⟩ := by
    simp only [invokeLLMWithRetry, invokeLoop, h1, habort, retryable,
      Bool.false_eq_true, if_false, List.reverse_nil]
  refine ⟨hrun, ?_⟩
  intro ctx res hres
  rw [← hres, hrun]
  rfl

theorem c6_witness :
    invokeLLMWithRetry (fun _ => (.error "Rate limit exceeded (429). Please retry in 10s." : Except String Unit)) =
      ⟨1, [], .error (.llmError ("Rate limit wait too long (" ++ toString (10 : Rat) ++
        "s > 5s) - aborting retry to show documents."))⟩ :=
  (c6_rate_limit_ceiling_aborts
    (fun _ => (.error "Rate limit exceeded (429). Please retry in 10s." : Except String Unit))
    "Rate limit exceeded (429). Please retry in 10s." 10 rfl
    (Or.inl (by decide)) (by decide) (by norm_num)).1

/-! ## Re-ranking and retrieval orchestration —
src/retrieval/reranker.py and src/retrieval/retriever.py

`rerank_results(query, chunks, top_k)` scores each `(query, chunk.content)`
pair with the CrossEncoder (external; modelled by the `scores` list /
`scoreFn`), stores each score in the chunk's `rerank_score` field, sorts all
chunks by `x.rerank_score or 0` descending with Python's stable `list.sort`
(modelled by a stable descending insertion sort), and truncates to `top_k`. -/

def rerank_key (r : RetrievalResult) : Rat := r.rerank_score.getD 0

def insertDesc (x : RetrievalResult) :
    List RetrievalResult → List RetrievalResult
  | [] => [x]
  | y :: t =>
    if rerank_key y ≤ rerank_key x then x :: y :: t else y :: insertDesc x t

/-- Stable descending sort by `rerank_key`
(`chunks.sort(key=lambda x: x.rerank_score or 0, reverse=True)`). -/
def sortDesc : List RetrievalResult → List RetrievalResult
  | [] => []
  | x :: t => insertDesc x (sortDesc t)

def rerank_results (scores : List Rat) (chunks : List RetrievalResult)
    (top_k : Nat) : List RetrievalResult :=
  if chunks.isEmpty then []
  else
    let scored :=
      (chunks.zip scores).map (fun p => { p.1 with rerank_score := some p.2 }) ++
        chunks.drop scores.length
    (sortDesc scored).take top_k

/-- Model of `retrieve(query, top_k, distance_threshold, metadata_filter, rerank)`
(src/retrieval/retriever.py): over-fetch `top_k * 3` when re-ranking is
requested, otherwise fetch exactly `top_k` (`searchFn` is the vector-store
search, which returns at most the requested number of rows); re-rank and
truncate when re-ranking is on and candidates exist. -/
def retrieve (searchFn : Nat → List RetrievalResult)
    (scoreFn : List RetrievalResult → List Rat) (top_k : Nat) (rerank : Bool) :
    List RetrievalResult :=
  let search_k := if rerank then top_k * 3 else top_k
  let results := searchFn search_k
  if rerank && !results.isEmpty then
    rerank_results (scoreFn results) results top_k
  else results

lemma insertDesc_perm (x : RetrievalResult) (l : List RetrievalResult) :
    List.Perm (insertDesc x l) (x :: l) := by
  induction l with
  | nil => exact List.Perm.refl _
  | cons y t ih =>
    unfold insertDesc
    by_cases h : rerank_key y ≤ rerank_key x
    · rw [if_pos h]
    · rw [if_neg h]
      exact (ih.cons y).trans (List.Perm.swap x y t)

lemma sortDesc_perm (l : List RetrievalResult) : List.Perm (sortDesc l) l := by
  induction l with
  | nil => exact List.Perm.refl _
  | cons x t ih => exact (insertDesc_perm x (sortDesc t)).trans (ih.cons x)

lemma mem_insertDesc {z x : RetrievalResult} {l : List RetrievalResult}
    (h : z ∈ insertDesc x l) : z = x ∨ z ∈ l :=
  List.mem_cons.mp ((insertDesc_perm x l).mem_iff.mp h)

lemma insertDesc_sorted {x : RetrievalResult} {l : List RetrievalResult}
    (h : List.Pairwise (fun a b => rerank_key b ≤ rerank_key a) l) :
    List.Pairwise (fun a b => rerank_key b ≤ rerank_key a) (insertDesc x l) := by
  induction l with
  | nil => simp [insertDesc]
  | cons y t ih =>
    unfold insertDesc
    by_cases hxy : rerank_key y ≤ rerank_key x
    · rw [if_pos hxy]
      refine List.pairwise_cons.mpr ⟨?_, h⟩
      intro z hz
      rcases List.mem_cons.mp hz with hz | hz
      · exact hz ▸ hxy
      · exact le_trans ((List.pairwise_cons.mp h).1 z hz) hxy
    · rw [if_neg hxy]
      refine List.pairwise_cons.mpr ⟨?_, ih (List.pairwise_cons.mp h).2⟩
      intro z hz
      rcases mem_insertDesc hz with hz | hz
      · exact hz ▸ le_of_lt (lt_of_not_le hxy)
      · exact (List.pairwise_cons.mp h).1 z hz

lemma sortDesc_sorted (l : List RetrievalResult) :
    List.Pairwise (fun a b => rerank_key b ≤ rerank_key a) (sortDesc l) := by
  induction l with
  | nil => simp [sortDesc]
  | cons x t ih => exact insertDesc_sorted ih

lemma scored_length (chunks : List RetrievalResult) (scores : List Rat) :
    ((chunks.zip scores).map
        (fun p : RetrievalResult × Rat => { p.1 with rerank_score := some p.2 }) ++
      chunks.drop scores.length).length = chunks.length := by
  rw [List.length_append, List.length_map, List.length_zip, List.length_drop]
  omega

/-- C7: `retrieve` asks the vector store for `top_k * 3` candidates when
re-ranking is requested and exactly `top_k` otherwise; with re-ranking off
the vector-search order is returned as delivered (the store's LIMIT is the
truncation); with re-ranking on and candidates present, the output is the
candidates re-scored by the cross-encoder, ordered by descending re-rank
score — fully superseding the vector-search order — and truncated to
`top_k`: it is sorted descending, has length `min top_k candidates`, and is
drawn from the scored candidate pool. -/
theorem c7_retrieve_overfetch_rerank_order
    (searchFn : Nat → List RetrievalResult)
    (scoreFn : List RetrievalResult → List Rat) (top_k : Nat) :
    retrieve searchFn scoreFn top_k false = searchFn top_k ∧
    retrieve searchFn scoreFn top_k true =
      (if (searchFn (top_k * 3)).isEmpty then searchFn (top_k * 3)
       else rerank_results (scoreFn (searchFn (top_k * 3)))
              (searchFn (top_k * 3)) top_k) ∧
    (∀ (cands : List RetrievalResult) (scores : List Rat), cands ≠ [] →
      List.Pairwise (fun a b => rerank_key b ≤ rerank_key a)
          (rerank_results scores cands top_k) ∧
      (rerank_results scores cands top_k).length = min top_k cands.length ∧
      List.Subperm (rerank_results scores cands top_k)
        ((cands.zip scores).map
            (fun p : RetrievalResult × Rat => { p.1 with rerank_score := some p.2 }) ++
          cands.drop scores.length)) := by
  refine ⟨by simp [retrieve], ?_, ?_⟩
  · by_cases h : (searchFn (top_k * 3)).isEmpty <;> simp [retrieve, h]
  · intro cands scores hne
    have hni : cands.isEmpty = false := by
      cases cands with
      | nil => exact absurd rfl hne
      | cons a t => rfl
    unfold rerank_results
    rw [hni]
    simp only [Bool.false_eq_true, if_false]
    refine ⟨?_, ?_, ?_⟩
    · exact List.Pairwise.sublist (List.take_sublist _ _) (sortDesc_sorted _)
    · rw [List.length_take, (sortDesc_perm _).length_eq, scored_length]
    · exact ((List.take_sublist _ _).subperm).trans (sortDesc_perm _).subperm

def exR (id content : String) (sim : Rat) : RetrievalResult :=
  ⟨id, content, [], none, 0, none, sim, none⟩

/-- The three candidates of the claim's example, in vector-search order
(similarities 0.9, 0.5, 0.3). -/
def exCands : List RetrievalResult :=
  [exR "r1" "content r1" (mkRat 9 10), exR "r2" "content r2" (mkRat 1 2),
   exR "r3" "content r3" (mkRat 3 10)]

/-- A store returning `exCands` under the requested LIMIT. -/
def exSearch (k : Nat) : List RetrievalResult := exCands.take k

/-- A cross-encoder scoring the example candidates 0.1, 0.2, 0.9. -/
def exScore (rs : List RetrievalResult) : List Rat :=
  if rs = exCands then [mkRat 1 10, mkRat 2 10, mkRat 9 10] else []

theorem c7_witness :
    exCands ≠ [] ∧
    retrieve exSearch exScore 2 true =
      [⟨"r3", "content r3", [], none, 0, none, mkRat 3 10, some (mkRat 9 10)⟩,
       ⟨"r2", "content r2", [], none, 0, none, mkRat 1 2, some (mkRat 2 10)⟩] ∧
    retrieve exSearch exScore 2 false = exSearch 2 ∧
    (rerank_results [mkRat 1 10, mkRat 2 10, mkRat 9 10] exCands 2).length =
      min 2 exCands.length :=
  ⟨by decide, by decide,
   (c7_retrieve_overfetch_rerank_order exSearch exScore 2).1,
   ((c7_retrieve_overfetch_rerank_order exSearch exScore 2).2.2 exCands
     [mkRat 1 10, mkRat 2 10, mkRat 9 10] (by decide)).2.1⟩

end Rag101
